import Mathlib

/-!
# Debounced button channel (`src/sender/src/main.cpp`)

A shallow embedding of the `Button_s` "object" of the sender firmware and of
its operations `Button`, `debounceButton` and `btnRead`, followed by the
properties of the debounce / edge-detection state machine.

Modelling conventions

* `uint8_t`, `uint16_t`, `uint32_t` fields are natural numbers; the only
  arithmetic the code performs on them is the unsigned 32-bit subtraction
  `getMs() - press_time`, embedded as `sub32` (difference modulo `2^32`).
* `digitalRead(self->pin)` is an input of `btnRead`: the sampled level,
  `true` for HIGH (any non-zero value converts to `true` on the `bool` store).
* every `self->getMs()` call is an input as well: the value returned by
  `millis()`, a `uint32_t`, hence a number below `2^32`.
* the function-pointer fields `getMs`, `debounce` and `btnRead` are set once by
  `Button` to `millis`, `debounceButton` and `btnRead` and never reassigned, so
  the calls `self->debounce(self)` are embedded as direct calls; `onClick` is
  kept as the address of the callback.
-/

namespace ButtonsPlatformio

/-- The `DEBOUNCE_TIME` constant, in milliseconds. -/
def DEBOUNCE_TIME : Nat := 5

/-- The data fields of `struct Button_s`, plus the `onClick` callback address. -/
structure Button_s where
  pressed : Bool
  last_state : Bool
  state : Bool
  run_once : Bool
  run_state : Bool
  pin : Nat
  debounce_time : Nat
  press_time : Nat
  onClick : Nat
  deriving DecidableEq, Repr, Inhabited

/-- Unsigned 32-bit subtraction `a - b` of two `uint32_t` values. -/
def sub32 (a b : Nat) : Nat := (a + 2 ^ 32 - b) % 2 ^ 32

/-- The constructor `Button(self, pin, run_once, fn)`: every data field of
`self` is overwritten. -/
def Button (self : Button_s) (pin : Nat) (run_once : Bool) (fn : Nat) : Button_s :=
  { self with
    pressed := false
    last_state := false
    state := false
    run_once := run_once
    run_state := false
    pin := pin
    debounce_time := DEBOUNCE_TIME
    press_time := 0
    onClick := fn }

/-- The function `debounceButton(self)`. `ms1` is the value returned by the
`getMs()` call of the first `if` (used only when that branch runs) and `ms2`
the value returned by the `getMs()` call of the second `if`. Returns the
result and the updated object. -/
def debounceButton (self : Button_s) (ms1 ms2 : Nat) : Bool × Button_s :=
  let self1 : Button_s :=
    if self.state != self.last_state then
      { self with last_state := self.state, press_time := ms1 }
    else self
  let debounce : Bool :=
    if self1.state == self1.last_state
        && decide (sub32 ms2 self1.press_time ≥ self1.debounce_time) then true
    else false
  (debounce, self1)

/-- The function `btnRead(self)`. `level` is the value of
`digitalRead(self->pin)`, `ms1` and `ms2` the two clock readings handed to
`debounceButton`. Returns the result and the updated object. -/
def btnRead (self : Button_s) (level : Bool) (ms1 ms2 : Nat) : Bool × Button_s :=
  let self1 : Button_s := { self with state := level }
  let d := debounceButton self1 ms1 ms2
  let self2 : Button_s := d.2
  -- if (self->debounce(self)) { pressed = state; if (!run_once && pressed) read = true; }
  let self3 : Button_s := if d.1 then { self2 with pressed := self2.state } else self2
  let read3 : Bool := if d.1 then (if !self3.run_once && self3.pressed then true else false) else false
  -- if (self->run_once) { ... }
  if self3.run_once then
    let fire : Bool := self3.pressed && !self3.run_state
    let self4 : Button_s := if fire then { self3 with run_state := true } else self3
    let read4 : Bool := if fire then true else read3
    let self5 : Button_s := if !self4.pressed then { self4 with run_state := false } else self4
    (read4, self5)
  else
    (read3, self3)

/-- One `btnRead` call seen from outside: the sampled level `x.1` and the
clock reading `x.2`, returned by both `getMs()` calls of that call. -/
def btnReadAt (self : Button_s) (x : Bool × Nat) : Bool × Button_s :=
  btnRead self x.1 x.2 x.2

/-- The object after a run of `btnRead` calls. -/
def runState (self : Button_s) : List (Bool × Nat) → Button_s
  | [] => self
  | x :: xs => runState (btnReadAt self x).2 xs

/-- The results returned by a run of `btnRead` calls, in order. -/
def runReads (self : Button_s) : List (Bool × Nat) → List Bool
  | [] => []
  | x :: xs => (btnReadAt self x).1 :: runReads (btnReadAt self x).2 xs

/-- The values of `pressed` after each call of a run, in order. -/
def runPressed (self : Button_s) : List (Bool × Nat) → List Bool
  | [] => []
  | x :: xs => (btnReadAt self x).2.pressed :: runPressed (btnReadAt self x).2 xs

/-- Clock readings of a run are `uint32_t` values and never decrease. -/
def ClockOk (xs : List (Bool × Nat)) : Prop :=
  (xs.map Prod.snd).Pairwise (· ≤ ·) ∧ ∀ x ∈ xs, x.2 < 2 ^ 32

/-- Samples taken at the fixed interval `d` by a 32-bit millisecond counter
whose first reading is taken at time `t0`: the readings are
`t0 % 2^32, (t0 + d) % 2^32, ...`. -/
def sampled (t0 d : Nat) : List Bool → List (Bool × Nat)
  | [] => []
  | l :: ls => (l, t0 % 2 ^ 32) :: sampled (t0 + d) d ls

/-- The results of a run of `debounceButton` calls on one object, the raw level
`state` left untouched between the calls; each call sees one clock reading. -/
def debounceReads (self : Button_s) : List Nat → List Bool
  | [] => []
  | t :: ts => (debounceButton self t t).1 :: debounceReads (debounceButton self t t).2 ts

/-- Number of press events of a sequence of raw levels that follows a reading
`prev`: the number of maximal contiguous runs of active readings, counted at
the reading that opens each run. -/
def pressEvents (prev : Bool) : List Bool → Nat
  | [] => 0
  | l :: ls => (if l && !prev then 1 else 0) + pressEvents l ls

/-- The runs of equal levels in `xs` last long enough to be confirmed, where
`xs` continues a run of level `cur` whose first reading was `start` and whose
latest reading was `last`, and `confirmed` tells that the level `cur` needs no
further confirmation. A run is long enough when it spans at least
`DEBOUNCE_TIME` between its first and its last reading; this is required of
every run of active levels, and of every run of inactive levels that is
followed by a run of active levels, unless the run is already confirmed. -/
def runsHoldFrom (cur confirmed : Bool) (start last : Nat) : List (Bool × Nat) → Bool
  | [] => !cur || confirmed || decide (start + DEBOUNCE_TIME ≤ last)
  | x :: xs =>
    if x.1 = cur then runsHoldFrom cur confirmed start x.2 xs
    else (confirmed || decide (start + DEBOUNCE_TIME ≤ last))
      && runsHoldFrom x.1 false x.2 x.2 xs

/-- Every maximal run of active levels in `xs` spans at least `DEBOUNCE_TIME`
between its first and its last reading, and so does every maximal run of
inactive levels that lies between two runs of active levels. The samples
continue the inactive level of a freshly constructed object, which needs no
confirmation. -/
def runsHold (xs : List (Bool × Nat)) : Bool :=
  runsHoldFrom false true 0 0 xs

/-- The pin of the LED button, `BTN_1`. -/
def BTN_1 : Nat := 10

/-- The object `led_btn` of `loop()` right after
`Button(&led_btn, BTN_1, true, button_1_Callback)`; `run_once` is left as a
parameter and the callback address is 1. -/
def led_btn (run_once : Bool) : Button_s := Button default BTN_1 run_once 1

/-- The state `button_1_Callback` owns besides the button: its `static bool
state` toggle flag, and the levels it has written to the `LED` pin with
`digitalWrite(LED, state)`, oldest first. -/
structure Led_s where
  state : Bool
  writes : List Bool
  deriving DecidableEq, Repr, Inhabited

/-- The function `button_1_Callback(self)`: one `btnRead` on `self`, and when it
returns true `state ^= 1` followed by `digitalWrite(LED, state)`. `level`,
`ms1`, `ms2` are the inputs of that `btnRead` call. -/
def button_1_Callback (self : Button_s) (led : Led_s) (level : Bool) (ms1 ms2 : Nat) :
    Button_s × Led_s :=
  let r := btnRead self level ms1 ms2
  if r.1 then
    let state : Bool := xor led.state true
    (r.2, { state := state, writes := led.writes ++ [state] })
  else
    (r.2, led)

/-- The polls `led_btn.onClick(&led_btn)` of the `while (true)` loop of `loop()`,
one per sample, each seeing one clock reading. -/
def runLed (self : Button_s) (led : Led_s) : List (Bool × Nat) → Button_s × Led_s
  | [] => (self, led)
  | x :: xs =>
    runLed (button_1_Callback self led x.1 x.2 x.2).1 (button_1_Callback self led x.1 x.2 x.2).2 xs

/-- The first reading of the run of inactive levels in progress after the
sample `x`, given the one in progress before it (`none`: the latest level was
active or nothing was sampled yet). -/
def inactiveStep (start : Option Nat) (x : Bool × Nat) : Option Nat :=
  if x.1 then none
  else match start with
    | none => some x.2
    | some t => some t

/-- The first reading of the run of inactive levels in progress after the
samples `xs`. -/
def inactiveSince (start : Option Nat) (xs : List (Bool × Nat)) : Option Nat :=
  xs.foldl inactiveStep start

/-- Every inactive sample of `xs` is read less than `DEBOUNCE_TIME` after the
first reading of its maximal run of inactive levels, where `start` is the first
reading of the run of inactive levels in progress before `xs`. With
non-decreasing readings: every maximal run of inactive levels spans less than
`DEBOUNCE_TIME` from the call that first sees it to its last call. -/
def releasesShort (start : Option Nat) : List (Bool × Nat) → Bool
  | [] => true
  | x :: xs =>
    (match inactiveStep start x with
      | none => true
      | some t => decide (x.2 < t + DEBOUNCE_TIME))
    && releasesShort (inactiveStep start x) xs

/-- Whether the `debounceButton` call inside `btnReadAt s x` reports settled. -/
def settledAt (s : Button_s) (x : Bool × Nat) : Bool :=
  (debounceButton { s with state := x.1 } x.2 x.2).1

/-! ## Effect of one call -/

theorem sub32_self (a : Nat) : sub32 a a = 0 := by
  unfold sub32
  have : a + 2 ^ 32 - a = 2 ^ 32 := by omega
  rw [this]; norm_num

theorem sub32_of_le {a b : Nat} (hb : b ≤ a) (ha : a < 2 ^ 32) : sub32 a b = a - b := by
  unfold sub32
  omega

theorem debounceButton_last_state (s : Button_s) (a b : Nat) :
    (debounceButton s a b).2.last_state = s.state := by
  unfold debounceButton
  cases h : s.state <;> cases h2 : s.last_state <;> simp [h, h2]

theorem debounceButton_press_time (s : Button_s) (a b : Nat) :
    (debounceButton s a b).2.press_time
      = if s.state = s.last_state then s.press_time else a := by
  unfold debounceButton
  cases h : s.state <;> cases h2 : s.last_state <;> simp [h, h2]

theorem debounceButton_result (s : Button_s) (a b : Nat) :
    (debounceButton s a b).1
      = decide (s.debounce_time
          ≤ sub32 b (if s.state = s.last_state then s.press_time else a)) := by
  unfold debounceButton
  cases h : s.state <;> cases h2 : s.last_state <;> simp [h, h2]

theorem settledAt_eq (s : Button_s) (x : Bool × Nat) :
    settledAt s x
      = decide (s.debounce_time
          ≤ sub32 x.2 (if x.1 = s.last_state then s.press_time else x.2)) := by
  unfold settledAt
  rw [debounceButton_result]

theorem btnReadAt_last_state (s : Button_s) (x : Bool × Nat) :
    (btnReadAt s x).2.last_state = x.1 := by
  unfold btnReadAt btnRead debounceButton
  cases s.last_state <;> cases x.1 <;> simp <;> split_ifs <;> simp

theorem btnReadAt_press_time (s : Button_s) (x : Bool × Nat) :
    (btnReadAt s x).2.press_time = if x.1 = s.last_state then s.press_time else x.2 := by
  unfold btnReadAt btnRead debounceButton
  cases s.last_state <;> cases x.1 <;> simp <;> split_ifs <;> simp

theorem btnReadAt_debounce_time (s : Button_s) (x : Bool × Nat) :
    (btnReadAt s x).2.debounce_time = s.debounce_time := by
  unfold btnReadAt btnRead debounceButton
  cases s.last_state <;> cases x.1 <;> simp <;> split_ifs <;> simp

theorem btnReadAt_run_once (s : Button_s) (x : Bool × Nat) :
    (btnReadAt s x).2.run_once = s.run_once := by
  unfold btnReadAt btnRead debounceButton
  cases s.last_state <;> cases x.1 <;> simp <;> split_ifs <;> simp_all

theorem btnReadAt_pressed (s : Button_s) (x : Bool × Nat) :
    (btnReadAt s x).2.pressed = if settledAt s x then x.1 else s.pressed := by
  unfold settledAt btnReadAt btnRead debounceButton
  cases s.last_state <;> cases x.1 <;> simp <;> split_ifs <;> simp_all

theorem btnReadAt_run_state_edge (s : Button_s) (x : Bool × Nat) (h : s.run_once = true) :
    (btnReadAt s x).2.run_state = (btnReadAt s x).2.pressed := by
  unfold btnReadAt btnRead debounceButton
  cases s.last_state <;> cases x.1 <;> cases hp : s.pressed <;> cases hr : s.run_state <;>
    simp [h, hp, hr] <;> split_ifs <;> simp_all

theorem btnReadAt_result_edge (s : Button_s) (x : Bool × Nat) (h : s.run_once = true) :
    (btnReadAt s x).1 = ((btnReadAt s x).2.pressed && !s.run_state) := by
  unfold btnReadAt btnRead debounceButton
  cases s.last_state <;> cases x.1 <;> cases hp : s.pressed <;> cases hr : s.run_state <;>
    simp [h, hp, hr] <;> split_ifs <;> simp_all

theorem btnReadAt_result_level (s : Button_s) (x : Bool × Nat) (h : s.run_once = false) :
    (btnReadAt s x).1 = (settledAt s x && x.1) := by
  unfold settledAt btnReadAt btnRead debounceButton
  cases s.last_state <;> cases x.1 <;> cases hp : s.pressed <;>
    simp [h, hp] <;> split_ifs <;> simp_all

theorem btnReadAt_run_state_level (s : Button_s) (x : Bool × Nat) (h : s.run_once = false) :
    (btnReadAt s x).2.run_state = s.run_state := by
  unfold btnReadAt btnRead debounceButton
  cases s.last_state <;> cases x.1 <;> simp [h] <;> split_ifs <;> simp_all

theorem Button_fields (self : Button_s) (pin : Nat) (ro : Bool) (fn : Nat) :
    (Button self pin ro fn).pressed = false ∧ (Button self pin ro fn).last_state = false ∧
    (Button self pin ro fn).run_state = false ∧ (Button self pin ro fn).run_once = ro ∧
    (Button self pin ro fn).debounce_time = 5 ∧ (Button self pin ro fn).press_time = 0 := by
  simp [Button, DEBOUNCE_TIME]

/-! ## Runs of calls -/

theorem runState_append (s : Button_s) (a b : List (Bool × Nat)) :
    runState s (a ++ b) = runState (runState s a) b := by
  induction a generalizing s with
  | nil => rfl
  | cons x a ih => simp [runState, ih]

theorem runState_snoc (s : Button_s) (a : List (Bool × Nat)) (x : Bool × Nat) :
    runState s (a ++ [x]) = (btnReadAt (runState s a) x).2 := by
  rw [runState_append]; rfl

theorem runState_debounce_time (s : Button_s) (a : List (Bool × Nat)) :
    (runState s a).debounce_time = s.debounce_time := by
  induction a generalizing s with
  | nil => rfl
  | cons x a ih => simp [runState, ih, btnReadAt_debounce_time]

theorem runState_run_once (s : Button_s) (a : List (Bool × Nat)) :
    (runState s a).run_once = s.run_once := by
  induction a generalizing s with
  | nil => rfl
  | cons x a ih => simp [runState, ih, btnReadAt_run_once]

/-- In EDGE mode the latch `run_state` follows `pressed` along every run. -/
theorem runState_latch_edge (s : Button_s) (a : List (Bool × Nat)) (h : s.run_once = true)
    (hl : s.run_state = s.pressed) :
    (runState s a).run_state = (runState s a).pressed := by
  induction a generalizing s with
  | nil => exact hl
  | cons x a ih =>
    simp only [runState]
    exact ih _ (by rw [btnReadAt_run_once, h]) (btnReadAt_run_state_edge s x h)

theorem clockOk_snoc {pre : List (Bool × Nat)} {x : Bool × Nat} (h : ClockOk (pre ++ [x])) :
    (∀ y ∈ pre, y.2 ≤ x.2) ∧ x.2 < 2 ^ 32 := by
  obtain ⟨hp, hb⟩ := h
  rw [List.map_append, List.pairwise_append] at hp
  refine ⟨?_, hb x (by simp)⟩
  intro y hy
  exact hp.2.2 y.2 (List.mem_map_of_mem _ hy) x.2 (by simp)

/-- Along every run from a constructed object, either `press_time` is the
reading of a call of the run from which on every sampled level equals
`last_state`, or no level change has been seen yet. -/
theorem run_window_invariant (self : Button_s) (pin fn : Nat) (ro : Bool)
    (pre : List (Bool × Nat)) :
    (∃ a y b, pre = a ++ y :: b ∧
        y.2 = (runState (Button self pin ro fn) pre).press_time ∧
        ∀ z ∈ y :: b, z.1 = (runState (Button self pin ro fn) pre).last_state) ∨
      ((runState (Button self pin ro fn) pre).pressed = false ∧
        (runState (Button self pin ro fn) pre).last_state = false) := by
  induction pre using List.reverseRecOn with
  | nil => right; simp [runState, Button]
  | append_singleton pre x ih =>
    have hdt : (runState (Button self pin ro fn) pre).debounce_time = 5 := by
      rw [runState_debounce_time]; rfl
    rw [runState_snoc]
    generalize runState (Button self pin ro fn) pre = s at ih hdt
    rw [btnReadAt_last_state, btnReadAt_press_time, btnReadAt_pressed, settledAt_eq]
    by_cases hx : x.1 = s.last_state
    · rw [if_pos hx]
      rcases ih with ⟨a, y, b, hpre, hy, hall⟩ | ⟨hp, hl⟩
      · left
        refine ⟨a, y, b ++ [x], by simp [hpre], hy, ?_⟩
        intro z hz
        rw [← List.cons_append, List.mem_append, List.mem_singleton] at hz
        rcases hz with hz | hz
        · rw [hall z hz, hx]
        · rw [hz]
      · right
        refine ⟨?_, by rw [hx, hl]⟩
        rw [hx, hl, hp]; simp
    · left
      rw [if_neg hx]
      exact ⟨pre, x, [], rfl, rfl, by simp⟩

/-! ## Runs of `debounceButton` calls -/

theorem debounceButton_stable (s : Button_s) (t : Nat) (h : s.state = s.last_state) :
    (debounceButton s t t).2 = s := by
  unfold debounceButton
  simp [h]

theorem debounceButton_state (s : Button_s) (a b : Nat) :
    (debounceButton s a b).2.state = s.state := by
  unfold debounceButton
  cases h : s.state <;> cases h2 : s.last_state <;> simp [h, h2]

theorem debounceButton_debounce_time (s : Button_s) (a b : Nat) :
    (debounceButton s a b).2.debounce_time = s.debounce_time := by
  unfold debounceButton
  cases h : s.state <;> cases h2 : s.last_state <;> simp [h, h2]

theorem debounceReads_stable (s : Button_s) (ts : List Nat) (h : s.state = s.last_state)
    (hts : ∀ t ∈ ts, s.debounce_time ≤ sub32 t s.press_time) :
    ∀ r ∈ debounceReads s ts, r = true := by
  induction ts with
  | nil => intro r hr; simp [debounceReads] at hr
  | cons t ts ih =>
    intro r hr
    simp only [debounceReads, List.mem_cons] at hr
    rcases hr with hr | hr
    · rw [hr, debounceButton_result, if_pos h]
      exact decide_eq_true (hts t (by simp))
    · rw [debounceButton_stable s t h] at hr
      exact ih (fun t ht => hts t (by simp [ht])) r hr

/-! ## Press events -/

theorem count_true_cons (b : Bool) (l : List Bool) :
    (b :: l).count true = l.count true + (if b then 1 else 0) := by
  cases b <;> simp

/-- In EDGE mode a run returns true at most once per press event still open. -/
theorem edge_reads_le (xs : List (Bool × Nat)) (s : Button_s) (p : Bool)
    (hro : s.run_once = true) (hl : s.run_state = s.pressed) :
    (runReads s xs).count true
      ≤ pressEvents p (xs.map Prod.fst) + (if p && !s.pressed then 1 else 0) := by
  induction xs generalizing s p with
  | nil => simp [runReads, pressEvents]
  | cons x xs ih =>
    have ih1 := ih (btnReadAt s x).2 x.1 (by rw [btnReadAt_run_once, hro])
      (btnReadAt_run_state_edge s x hro)
    simp only [runReads, List.map_cons, pressEvents, count_true_cons]
    rw [btnReadAt_result_edge s x hro, hl]
    rw [btnReadAt_pressed] at ih1 ⊢
    revert ih1
    cases settledAt s x <;> cases x.1 <;> cases p <;> cases s.pressed <;> simp <;> omega

theorem clockOk_cons {x : Bool × Nat} {xs : List (Bool × Nat)} (h : ClockOk (x :: xs)) :
    x.2 < 2 ^ 32 ∧ (∀ y ∈ xs, x.2 ≤ y.2) ∧ ClockOk xs := by
  obtain ⟨hp, hb⟩ := h
  rw [List.map_cons, List.pairwise_cons] at hp
  refine ⟨hb x (by simp), ?_, hp.2, fun y hy => hb y (by simp [hy])⟩
  intro y hy
  exact hp.1 y.2 (List.mem_map_of_mem _ hy)

/-- In EDGE mode, when the runs of equal levels last long enough, a run returns
true exactly once per press event. -/
theorem edge_reads_eq (xs : List (Bool × Nat)) (s : Button_s) (ok : Bool) (start last : Nat)
    (hro : s.run_once = true) (hl : s.run_state = s.pressed) (hdt : s.debounce_time = 5)
    (hpt : s.press_time ≤ start) (hsl : start ≤ last)
    (hJ : ok = true ∨ start + 5 ≤ last → s.pressed = s.last_state)
    (hclock : ClockOk xs) (hlast : ∀ y ∈ xs, last ≤ y.2)
    (hruns : runsHoldFrom s.last_state ok start last xs = true) :
    (runReads s xs).count true
      = pressEvents s.last_state (xs.map Prod.fst)
        + (if s.last_state && !s.pressed then 1 else 0) := by
  induction xs generalizing s ok start last with
  | nil =>
    simp only [runsHoldFrom, DEBOUNCE_TIME, Bool.or_eq_true, Bool.not_eq_true',
      decide_eq_true_eq, or_assoc] at hruns
    rcases hruns with h | h
    · simp [runReads, pressEvents, h]
    · simp [runReads, pressEvents, hJ h]
  | cons x xs ih =>
    obtain ⟨hx32, hxle, hcl⟩ := clockOk_cons hclock
    have hlx : last ≤ x.2 := hlast x (by simp)
    simp only [runReads, List.map_cons, pressEvents, count_true_cons]
    rw [btnReadAt_result_edge s x hro, hl]
    simp only [runsHoldFrom] at hruns
    by_cases hx : x.1 = s.last_state
    · rw [if_pos hx] at hruns
      have hset : start + 5 ≤ x.2 → settledAt s x = true := by
        intro h5
        rw [settledAt_eq, if_pos hx, hdt, sub32_of_le (by omega) hx32]
        exact decide_eq_true (by omega)
      have ih1 := ih (btnReadAt s x).2 ok start x.2 (by rw [btnReadAt_run_once, hro])
        (btnReadAt_run_state_edge s x hro) (by rw [btnReadAt_debounce_time, hdt])
        (by rw [btnReadAt_press_time, if_pos hx]; exact hpt) (by omega)
        (by
          intro h
          rw [btnReadAt_pressed, btnReadAt_last_state]
          rcases h with h | h
          · rw [hJ (Or.inl h), hx]; simp
          · rw [hset h]; rfl)
        hcl hxle (by rw [btnReadAt_last_state, hx]; exact hruns)
      rw [btnReadAt_last_state] at ih1
      rw [ih1, btnReadAt_pressed, hx]
      cases settledAt s x <;> cases s.last_state <;> cases s.pressed <;> simp
    · rw [if_neg hx] at hruns
      simp only [Bool.and_eq_true, Bool.or_eq_true, decide_eq_true_eq, DEBOUNCE_TIME] at hruns
      have hp := hJ hruns.1
      have hns : settledAt s x = false := by
        rw [settledAt_eq, if_neg hx, sub32_self, hdt]; simp
      have ih1 := ih (btnReadAt s x).2 false x.2 x.2 (by rw [btnReadAt_run_once, hro])
        (btnReadAt_run_state_edge s x hro) (by rw [btnReadAt_debounce_time, hdt])
        (by rw [btnReadAt_press_time, if_neg hx]) (le_refl _)
        (by
          intro h
          rcases h with h | h
          · exact absurd h (by simp)
          · omega)
        hcl hxle (by rw [btnReadAt_last_state]; exact hruns.2)
      rw [btnReadAt_last_state] at ih1
      rw [ih1, btnReadAt_pressed, hns, hp]
      revert hx
      cases x.1 <;> cases s.last_state <;> simp
      all_goals omega

/-! ## Calls with two clock readings -/

theorem btnRead_fields (s : Button_s) (level : Bool) (a b : Nat) :
    (btnRead s level a b).2.state = level ∧
    (btnRead s level a b).2.last_state
      = (debounceButton { s with state := level } a b).2.last_state ∧
    (btnRead s level a b).2.press_time
      = (debounceButton { s with state := level } a b).2.press_time ∧
    (btnRead s level a b).2.pressed
      = (if (debounceButton { s with state := level } a b).1 then level else s.pressed) := by
  unfold btnRead debounceButton
  cases s.last_state <;> cases level <;> simp <;> split_ifs <;> simp_all

theorem btnRead_run_state_edge (s : Button_s) (level : Bool) (a b : Nat)
    (h : s.run_once = true) :
    (btnRead s level a b).2.run_state = (btnRead s level a b).2.pressed := by
  unfold btnRead debounceButton
  cases s.last_state <;> cases level <;> cases hp : s.pressed <;> cases hr : s.run_state <;>
    simp [h, hp, hr] <;> split_ifs <;> simp_all

theorem btnRead_run_state_level (s : Button_s) (level : Bool) (a b : Nat)
    (h : s.run_once = false) :
    (btnRead s level a b).2.run_state = s.run_state := by
  unfold btnRead debounceButton
  cases s.last_state <;> cases level <;> simp [h] <;> split_ifs <;> simp_all

theorem runState_run_state_level (s : Button_s) (a : List (Bool × Nat))
    (h : s.run_once = false) :
    (runState s a).run_state = s.run_state := by
  induction a generalizing s with
  | nil => rfl
  | cons x a ih =>
    simp only [runState]
    rw [ih _ (by rw [btnReadAt_run_once, h]), btnReadAt_run_state_level s x h]

theorem sub32_add_mod (p e : Nat) (hp : p < 2 ^ 32) (he : e < 2 ^ 32) :
    sub32 ((p + e) % 2 ^ 32) p = e := by
  unfold sub32
  omega

/-! ## The LED callback -/

theorem button_1_Callback_fst (self : Button_s) (led : Led_s) (level : Bool) (ms1 ms2 : Nat) :
    (button_1_Callback self led level ms1 ms2).1 = (btnRead self level ms1 ms2).2 := by
  unfold button_1_Callback
  by_cases h : (btnRead self level ms1 ms2).1 = true
  · simp [h]
  · simp [h]

theorem button_1_Callback_state (self : Button_s) (led : Led_s) (level : Bool)
    (ms1 ms2 : Nat) :
    (button_1_Callback self led level ms1 ms2).2.state
      = xor led.state (btnRead self level ms1 ms2).1 := by
  unfold button_1_Callback
  by_cases h : (btnRead self level ms1 ms2).1 = true
  · simp [h]
  · simp [h]

theorem runLed_fst (self : Button_s) (led : Led_s) (xs : List (Bool × Nat)) :
    (runLed self led xs).1 = runState self xs := by
  induction xs generalizing self led with
  | nil => rfl
  | cons x xs ih =>
    simp only [runLed, runState]
    rw [ih, button_1_Callback_fst]
    rfl

theorem runLed_flag (self : Button_s) (led : Led_s) (xs : List (Bool × Nat)) :
    (runLed self led xs).2.state
      = xor led.state (decide ((runReads self xs).count true % 2 = 1)) := by
  induction xs generalizing self led with
  | nil => simp [runLed, runReads]
  | cons x xs ih =>
    simp only [runLed, runReads, count_true_cons]
    rw [ih, button_1_Callback_fst, button_1_Callback_state]
    have e : btnReadAt self x = btnRead self x.1 x.2 x.2 := rfl
    rw [e]
    cases h : (btnRead self x.1 x.2 x.2).1
    · simp
    · rcases Nat.mod_two_eq_zero_or_one (List.count true
        (runReads (btnRead self x.1 x.2 x.2).2 xs)) with h2 | h2
      · have h3 : (List.count true (runReads (btnRead self x.1 x.2 x.2).2 xs) + 1) % 2 = 1 := by
          omega
        simp [h2, h3]
      · have h3 : (List.count true (runReads (btnRead self x.1 x.2 x.2).2 xs) + 1) % 2 = 0 := by
          omega
        simp [h2, h3]

/-! ## Holding the button -/

theorem hold_run (t1 : Nat) (ts : List Nat) (s : Button_s) (hro : s.run_once = true)
    (hl : s.run_state = s.pressed) (hdt : s.debounce_time = 5) (hls : s.last_state = true)
    (hpt : s.press_time = t1) (hts : ∀ t ∈ ts, t1 ≤ t ∧ t < 2 ^ 32) :
    (runReads s (ts.map (fun t => (true, t)))).count true
      = (if !s.pressed && ts.any (fun t => decide (t1 + 5 ≤ t)) then 1 else 0) ∧
    (runState s (ts.map (fun t => (true, t)))).pressed
      = (s.pressed || ts.any (fun t => decide (t1 + 5 ≤ t))) ∧
    (runState s (ts.map (fun t => (true, t)))).last_state = true ∧
    (runState s (ts.map (fun t => (true, t)))).press_time = t1 := by
  induction ts generalizing s with
  | nil => simp [runReads, runState, hls, hpt]
  | cons t ts ih =>
    obtain ⟨ht1, ht32⟩ := hts t (by simp)
    have hset : settledAt s (true, t) = decide (t1 + 5 ≤ t) := by
      rw [settledAt_eq, hdt, hls, if_pos rfl, hpt]
      simp only [sub32_of_le ht1 ht32]
      by_cases h : t1 + 5 ≤ t
      · rw [decide_eq_true h]; exact decide_eq_true (by omega)
      · rw [decide_eq_false h]; exact decide_eq_false (by omega)
    have ih1 := ih (btnReadAt s (true, t)).2 (by rw [btnReadAt_run_once, hro])
      (btnReadAt_run_state_edge s _ hro) (by rw [btnReadAt_debounce_time, hdt])
      (by rw [btnReadAt_last_state]) (by rw [btnReadAt_press_time, hls, if_pos rfl, hpt])
      (fun u hu => hts u (by simp [hu]))
    simp only [List.map_cons, runReads, runState, count_true_cons, List.any_cons]
    rw [ih1.1, ih1.2.1, btnReadAt_result_edge s _ hro, hl, btnReadAt_pressed, hset]
    refine ⟨?_, ?_, ih1.2.2⟩
    · by_cases h5 : t1 + 5 ≤ t <;>
        by_cases hb : ts.any (fun t => decide (t1 + 5 ≤ t)) = true <;>
        by_cases hp : s.pressed = true <;> simp [h5, hb, hp]
    · by_cases h5 : t1 + 5 ≤ t <;>
        by_cases hb : ts.any (fun t => decide (t1 + 5 ≤ t)) = true <;>
        by_cases hp : s.pressed = true <;> simp [h5, hb, hp]

theorem pairwise_le_getLast (l : List Nat) (h : l ≠ []) (hp : l.Pairwise (· ≤ ·)) :
    ∀ u ∈ l, u ≤ l.getLast h := by
  intro u hu
  rw [← List.dropLast_append_getLast h] at hp hu
  rw [List.pairwise_append] at hp
  rw [List.mem_append, List.mem_singleton] at hu
  rcases hu with hu | hu
  · exact hp.2.2 u hu _ (by simp)
  · exact le_of_eq hu

theorem Button_first_active (self : Button_s) (pin fn t1 : Nat) :
    (btnReadAt (Button self pin true fn) (true, t1)).1 = false ∧
    (btnReadAt (Button self pin true fn) (true, t1)).2.pressed = false ∧
    (btnReadAt (Button self pin true fn) (true, t1)).2.run_state = false ∧
    (btnReadAt (Button self pin true fn) (true, t1)).2.last_state = true ∧
    (btnReadAt (Button self pin true fn) (true, t1)).2.press_time = t1 ∧
    (btnReadAt (Button self pin true fn) (true, t1)).2.run_once = true ∧
    (btnReadAt (Button self pin true fn) (true, t1)).2.debounce_time = 5 := by
  obtain ⟨h1, h2, h3, h4, h5, h6⟩ := Button_fields self pin true fn
  have hp : (btnReadAt (Button self pin true fn) (true, t1)).2.pressed = false := by
    rw [btnReadAt_pressed, settledAt_eq, h2, h5, h1]
    simp [sub32_self]
  refine ⟨?_, hp, ?_, btnReadAt_last_state _ _, ?_, ?_, ?_⟩
  · rw [btnReadAt_result_edge _ _ h4, hp]; rfl
  · rw [btnReadAt_run_state_edge _ _ h4, hp]
  · rw [btnReadAt_press_time, h2]; simp
  · rw [btnReadAt_run_once, h4]
  · rw [btnReadAt_debounce_time, h5]

/-! ## Level-mode stream and release bounce -/

theorem clockOk_append {a b : List (Bool × Nat)} (h : ClockOk (a ++ b)) :
    ClockOk a ∧ ClockOk b ∧ ∀ y ∈ a, ∀ z ∈ b, y.2 ≤ z.2 := by
  obtain ⟨hp, hb⟩ := h
  rw [List.map_append, List.pairwise_append] at hp
  refine ⟨⟨hp.1, fun x hx => hb x (by simp [hx])⟩, ⟨hp.2.1, fun x hx => hb x (by simp [hx])⟩, ?_⟩
  intro y hy z hz
  exact hp.2.2 y.2 (List.mem_map_of_mem _ hy) z.2 (List.mem_map_of_mem _ hz)

theorem runState_press_time_le (pre : List (Bool × Nat)) (s : Button_s) (T : Nat)
    (h : s.press_time ≤ T) (hp : ∀ y ∈ pre, y.2 ≤ T) : (runState s pre).press_time ≤ T := by
  induction pre generalizing s with
  | nil => exact h
  | cons x pre ih =>
    simp only [runState]
    apply ih
    · rw [btnReadAt_press_time]
      split_ifs
      · exact h
      · exact hp x (by simp)
    · intro y hy
      exact hp y (by simp [hy])

/-- In LEVEL mode, once the stable level is active and the window has elapsed,
every call that samples an active level returns true. -/
theorem level_stream (ys : List (Bool × Nat)) (s : Button_s) (T : Nat)
    (hro : s.run_once = false) (hls : s.last_state = true)
    (hw : s.press_time + s.debounce_time ≤ T)
    (hys : ∀ y ∈ ys, y.1 = true ∧ T ≤ y.2 ∧ y.2 < 2 ^ 32) :
    ∀ r ∈ runReads s ys, r = true := by
  induction ys generalizing s with
  | nil => intro r hr; simp [runReads] at hr
  | cons y ys ih =>
    obtain ⟨hy1, hyT, hy32⟩ := hys y (by simp)
    intro r hr
    simp only [runReads, List.mem_cons] at hr
    rcases hr with hr | hr
    · rw [hr, btnReadAt_result_level s y hro, settledAt_eq, hy1, hls, if_pos rfl,
        sub32_of_le (by omega) hy32]
      simp
      omega
    · refine ih (btnReadAt s y).2 (by rw [btnReadAt_run_once, hro])
        (by rw [btnReadAt_last_state, hy1]) ?_ (fun z hz => hys z (by simp [hz])) r hr
      rw [btnReadAt_press_time, btnReadAt_debounce_time, hy1, hls, if_pos rfl]
      exact hw

theorem inactiveSince_snoc (start : Option Nat) (pre : List (Bool × Nat)) (x : Bool × Nat) :
    inactiveSince start (pre ++ [x]) = inactiveStep (inactiveSince start pre) x := by
  simp [inactiveSince, List.foldl_append]

theorem inactiveSince_mem (pre : List (Bool × Nat)) (t : Nat)
    (h : inactiveSince none pre = some t) : ∃ y ∈ pre, y.2 = t := by
  induction pre using List.reverseRecOn generalizing t with
  | nil => simp [inactiveSince] at h
  | append_singleton pre x ih =>
    rw [inactiveSince_snoc] at h
    unfold inactiveStep at h
    split_ifs at h
    cases hs : inactiveSince none pre with
    | none =>
      rw [hs] at h
      simp only [Option.some.injEq] at h
      exact ⟨x, by simp, h⟩
    | some u =>
      rw [hs] at h
      simp only [Option.some.injEq] at h
      obtain ⟨y, hy, hyu⟩ := ih u hs
      exact ⟨y, by simp [hy], by rw [hyu, h]⟩

/-- Along every run from a constructed object, while `pressed` is true the
stable level and `press_time` follow the run of inactive levels in progress. -/
theorem run_release_invariant (self : Button_s) (pin fn : Nat) (ro : Bool)
    (pre : List (Bool × Nat)) :
    (runState (Button self pin ro fn) pre).pressed = false ∨
      ((inactiveSince none pre = none →
          (runState (Button self pin ro fn) pre).last_state = true) ∧
        ∀ t, inactiveSince none pre = some t →
          (runState (Button self pin ro fn) pre).last_state = false ∧
          (runState (Button self pin ro fn) pre).press_time = t) := by
  induction pre using List.reverseRecOn with
  | nil => left; simp [runState, Button]
  | append_singleton pre x ih =>
    rw [runState_snoc, inactiveSince_snoc]
    generalize runState (Button self pin ro fn) pre = s at ih
    generalize inactiveSince none pre = start at ih
    rw [btnReadAt_last_state, btnReadAt_press_time]
    by_cases hp : (btnReadAt s x).2.pressed = false
    · left; exact hp
    · right
      have hp1 : (btnReadAt s x).2.pressed = true := by simpa using hp
      unfold inactiveStep
      cases hx : x.1
      · -- an inactive sample: `pressed` was true before as well
        have hs : s.pressed = true := by
          rw [btnReadAt_pressed, hx] at hp1
          split_ifs at hp1
          exact hp1
        rcases ih with ih | ⟨ih1, ih2⟩
        · rw [ih] at hs; exact absurd hs (by simp)
        · cases start with
          | none =>
            simp only [Bool.false_eq_true, if_false, reduceCtorEq, false_implies,
              Option.some.injEq, true_and]
            intro t ht
            rw [ih1 rfl, if_neg (by simp)]
            exact ht
          | some u =>
            simp only [Bool.false_eq_true, if_false, reduceCtorEq, false_implies,
              Option.some.injEq, true_and]
            intro t ht
            rw [(ih2 u rfl).1, if_pos rfl, (ih2 u rfl).2]
            exact ht
      · simp

/-- In EDGE mode, from a state with `pressed` and `run_state` true, runs of
inactive levels that stay inside the window neither clear `pressed` nor make a
call return true. -/
theorem release_bounce_run (xs : List (Bool × Nat)) (s : Button_s) (start : Option Nat)
    (hro : s.run_once = true) (hrs : s.run_state = true) (hp : s.pressed = true)
    (hdt : s.debounce_time = 5)
    (hnone : start = none → s.last_state = true)
    (hsome : ∀ t, start = some t → s.last_state = false ∧ s.press_time = t)
    (hclock : ClockOk xs) (hst : ∀ t, start = some t → ∀ y ∈ xs, t ≤ y.2)
    (hshort : releasesShort start xs = true) :
    (∀ p ∈ runPressed s xs, p = true) ∧ (∀ r ∈ runReads s xs, r = false) := by
  induction xs generalizing s start with
  | nil => simp [runPressed, runReads]
  | cons x xs ih =>
    obtain ⟨hx32, hxle, hcl⟩ := clockOk_cons hclock
    simp only [releasesShort, Bool.and_eq_true] at hshort
    obtain ⟨hsh1, hsh2⟩ := hshort
    have hns : x.1 = false → settledAt s x = false := by
      intro hx
      rw [settledAt_eq, hdt, hx]
      cases hstart : start with
      | none =>
        rw [hnone hstart, if_neg (by simp), sub32_self]
        simp
      | some t =>
        obtain ⟨h1, h2⟩ := hsome t hstart
        have htx : t ≤ x.2 := hst t hstart x (by simp)
        rw [hstart] at hsh1
        simp only [inactiveStep, hx, Bool.false_eq_true, if_false, DEBOUNCE_TIME,
          decide_eq_true_eq] at hsh1
        rw [h1, if_pos rfl, h2, sub32_of_le htx hx32]
        simp
        omega
    have hp1 : (btnReadAt s x).2.pressed = true := by
      rw [btnReadAt_pressed, hp]
      cases hx : x.1
      · rw [hns hx]; simp
      · simp
    have hr1 : (btnReadAt s x).1 = false := by
      rw [btnReadAt_result_edge s x hro, hrs]; simp
    have ih1 := ih (btnReadAt s x).2 (inactiveStep start x) (by rw [btnReadAt_run_once, hro])
      (by rw [btnReadAt_run_state_edge s x hro, hp1]) hp1
      (by rw [btnReadAt_debounce_time, hdt])
      (by
        intro h
        rw [btnReadAt_last_state]
        unfold inactiveStep at h
        cases hx : x.1
        · rw [hx] at h
          cases start <;> simp at h
        · rfl)
      (by
        intro t h
        rw [btnReadAt_last_state, btnReadAt_press_time]
        unfold inactiveStep at h
        cases hx : x.1
        · rw [hx] at h
          cases hstart : start with
          | none =>
            rw [hstart] at h
            simp only [Bool.false_eq_true, if_false, Option.some.injEq] at h
            rw [hnone hstart, if_neg (by simp)]
            exact ⟨rfl, h⟩
          | some u =>
            rw [hstart] at h
            simp only [Bool.false_eq_true, if_false, Option.some.injEq] at h
            obtain ⟨h1, h2⟩ := hsome u hstart
            rw [h1, if_pos rfl, h2]
            exact ⟨rfl, h⟩
        · rw [hx] at h
          simp at h)
      hcl
      (by
        intro t h y hy
        unfold inactiveStep at h
        cases hx : x.1
        · rw [hx] at h
          cases hstart : start with
          | none =>
            rw [hstart] at h
            simp only [Bool.false_eq_true, if_false, Option.some.injEq] at h
            rw [← h]
            exact hxle y hy
          | some u =>
            rw [hstart] at h
            simp only [Bool.false_eq_true, if_false, Option.some.injEq] at h
            rw [← h]
            exact hst u hstart y (by simp [hy])
        · rw [hx] at h
          simp at h)
      hsh2
    constructor
    · intro p hpm
      simp only [runPressed, List.mem_cons] at hpm
      rcases hpm with hpm | hpm
      · rw [hpm, hp1]
      · exact ih1.1 p hpm
    · intro r hrm
      simp only [runReads, List.mem_cons] at hrm
      rcases hrm with hrm | hrm
      · rw [hrm, hr1]
      · exact ih1.2 r hrm

/-! ## Sampled scenarios -/

theorem scenario4_fast (self : Button_s) (pin fn t0 d : Nat) (hd : 5 ≤ d)
    (hw : t0 + 15 * d < 2 ^ 32) :
    runReads (Button self pin true fn)
      (sampled t0 d [false, true, true, true, true, true, false, false, false, false, false,
        true, true, true, true, true]) =
      [false, false, true, false, false, false, false, false, false, false, false,
        false, true, false, false, false] := by
  obtain ⟨h1, h2, h3, h4, h5, h6⟩ := Button_fields self pin true fn
  simp [runReads, sampled, btnReadAt_result_edge, btnReadAt_pressed, settledAt_eq,
    btnReadAt_last_state, btnReadAt_press_time, btnReadAt_debounce_time, btnReadAt_run_once,
    btnReadAt_run_state_edge, h1, h2, h3, h4, h5, h6, sub32_self]
  simp (disch := omega) only [Nat.mod_eq_of_lt, sub32_of_le]
  omega

theorem scenario4_mid (self : Button_s) (pin fn t0 d : Nat) (hd : d = 3 ∨ d = 4)
    (hw : t0 + 15 * d < 2 ^ 32) :
    runReads (Button self pin true fn)
      (sampled t0 d [false, true, true, true, true, true, false, false, false, false, false,
        true, true, true, true, true]) =
      [false, false, false, true, false, false, false, false, false, false, false,
        false, false, true, false, false] := by
  obtain ⟨h1, h2, h3, h4, h5, h6⟩ := Button_fields self pin true fn
  simp [runReads, sampled, btnReadAt_result_edge, btnReadAt_pressed, settledAt_eq,
    btnReadAt_last_state, btnReadAt_press_time, btnReadAt_debounce_time, btnReadAt_run_once,
    btnReadAt_run_state_edge, h1, h2, h3, h4, h5, h6, sub32_self]
  simp (disch := omega) only [Nat.mod_eq_of_lt, sub32_of_le]
  omega

theorem scenario4_slow (self : Button_s) (pin fn t0 : Nat) (hw : t0 + 15 * 2 < 2 ^ 32) :
    runReads (Button self pin true fn)
      (sampled t0 2 [false, true, true, true, true, true, false, false, false, false, false,
        true, true, true, true, true]) =
      [false, false, false, false, true, false, false, false, false, false, false,
        false, false, false, true, false] := by
  obtain ⟨h1, h2, h3, h4, h5, h6⟩ := Button_fields self pin true fn
  simp [runReads, sampled, btnReadAt_result_edge, btnReadAt_pressed, settledAt_eq,
    btnReadAt_last_state, btnReadAt_press_time, btnReadAt_debounce_time, btnReadAt_run_once,
    btnReadAt_run_state_edge, h1, h2, h3, h4, h5, h6, sub32_self]
  simp (disch := omega) only [Nat.mod_eq_of_lt, sub32_of_le]
  omega

/-! ## Claims -/

/-- C1: along every run of `btnRead` calls on an object built by `Button`, in
either mode, with non-decreasing `uint32_t` clock readings: when a call changes
`pressed`, an earlier call of the run has a reading at least 5 ms before its
reading, and every level sampled from that earlier call up to and
including this call equals the new value of `pressed`. -/
theorem pressed_changes_only_after_window (self : Button_s) (pin fn : Nat) (run_once : Bool)
    (pre : List (Bool × Nat)) (x : Bool × Nat) (hclock : ClockOk (pre ++ [x]))
    (hchg : (btnReadAt (runState (Button self pin run_once fn) pre) x).2.pressed
      ≠ (runState (Button self pin run_once fn) pre).pressed) :
    ∃ a y b, pre = a ++ y :: b ∧ y.2 + DEBOUNCE_TIME ≤ x.2 ∧
      ∀ z ∈ y :: (b ++ [x]),
        z.1 = (btnReadAt (runState (Button self pin run_once fn) pre) x).2.pressed := by
  have hinv := run_window_invariant self pin fn run_once pre
  have hdt : (runState (Button self pin run_once fn) pre).debounce_time = 5 := by
    rw [runState_debounce_time]; rfl
  obtain ⟨hle, hlt⟩ := clockOk_snoc hclock
  generalize runState (Button self pin run_once fn) pre = s at hinv hdt hchg ⊢
  rw [btnReadAt_pressed] at hchg ⊢
  have hset : settledAt s x = true := by
    cases h : settledAt s x
    · rw [h] at hchg; simp at hchg
    · rfl
  rw [hset] at hchg ⊢
  simp only [if_true] at hchg ⊢
  rw [settledAt_eq, hdt] at hset
  have hx : x.1 = s.last_state := by
    by_contra hne
    rw [if_neg hne, sub32_self] at hset
    simp at hset
  rw [if_pos hx] at hset
  rcases hinv with ⟨a, y, b, hpre, hy, hall⟩ | ⟨hp, hl⟩
  · refine ⟨a, y, b, hpre, ?_, ?_⟩
    · have hyx : y.2 ≤ x.2 := hle y (by rw [hpre]; simp)
      rw [← hy, sub32_of_le hyx hlt] at hset
      have := of_decide_eq_true hset
      simp only [DEBOUNCE_TIME]
      omega
    · intro z hz
      rw [← List.cons_append, List.mem_append, List.mem_singleton] at hz
      rcases hz with hz | hz
      · rw [hall z hz, hx]
      · rw [hz]
  · exact absurd (by rw [hx, hl, hp]) hchg

theorem pressed_changes_only_after_window_witness :
    ClockOk ([(true, 0)] ++ [(true, 5)]) ∧
    (btnReadAt (runState (led_btn true) [(true, 0)]) (true, 5)).2.pressed
      ≠ (runState (led_btn true) [(true, 0)]).pressed ∧
    ∃ a y b, [(true, 0)] = a ++ y :: b ∧ y.2 + DEBOUNCE_TIME ≤ (true, 5).2 ∧
      ∀ z ∈ y :: (b ++ [(true, 5)]),
        z.1 = (btnReadAt (runState (led_btn true) [(true, 0)]) (true, 5)).2.pressed := by
  have hc : ClockOk ([(true, 0)] ++ [(true, 5)]) := by
    constructor
    · simp
    · intro x hx
      simp at hx
      rcases hx with rfl | rfl <;> simp
  have hne : (btnReadAt (runState (led_btn true) [(true, 0)]) (true, 5)).2.pressed
      ≠ (runState (led_btn true) [(true, 0)]).pressed := by decide
  exact ⟨hc, hne,
    pressed_changes_only_after_window default BTN_1 1 true [(true, 0)] (true, 5) hc hne⟩

/-- C2: in EDGE mode, along every run from an object built by `Button`, for
every sequence of levels and clock readings, a call returns true exactly when
`pressed` was false before the call and is true after it; and between any two
calls that return true there is a call after which `pressed` is false. -/
theorem edge_true_iff_pressed_rises (self : Button_s) (pin fn : Nat) :
    (∀ (pre : List (Bool × Nat)) (x : Bool × Nat),
      (btnReadAt (runState (Button self pin true fn) pre) x).1 = true ↔
        ((runState (Button self pin true fn) pre).pressed = false ∧
          (btnReadAt (runState (Button self pin true fn) pre) x).2.pressed = true)) ∧
    (∀ (a b : List (Bool × Nat)) (x y : Bool × Nat),
      (btnReadAt (runState (Button self pin true fn) a) x).1 = true →
      (btnReadAt (runState (Button self pin true fn) (a ++ x :: b)) y).1 = true →
      ∃ b1 z b2, b = b1 ++ z :: b2 ∧
        (runState (Button self pin true fn) (a ++ x :: (b1 ++ [z]))).pressed = false) := by
  have key : ∀ (pre : List (Bool × Nat)) (x : Bool × Nat),
      (btnReadAt (runState (Button self pin true fn) pre) x).1 = true ↔
        ((runState (Button self pin true fn) pre).pressed = false ∧
          (btnReadAt (runState (Button self pin true fn) pre) x).2.pressed = true) := by
    intro pre x
    have hro : (runState (Button self pin true fn) pre).run_once = true := by
      rw [runState_run_once]; rfl
    have hl := runState_latch_edge (Button self pin true fn) pre rfl rfl
    rw [btnReadAt_result_edge _ _ hro, hl]
    cases (runState (Button self pin true fn) pre).pressed <;>
      cases (btnReadAt (runState (Button self pin true fn) pre) x).2.pressed <;> simp
  refine ⟨key, ?_⟩
  intro a b x y hx hy
  have hx2 := ((key a x).mp hx).2
  have hy1 := ((key (a ++ x :: b) y).mp hy).1
  rcases List.eq_nil_or_concat b with hb | ⟨b1, z, hb⟩
  · subst hb
    have e : a ++ [x] = a ++ x :: [] := rfl
    rw [← e, runState_snoc, hx2] at hy1
    exact absurd hy1 (by simp)
  · refine ⟨b1, z, [], by simpa using hb, ?_⟩
    have e : b1 ++ [z] = b := by rw [hb]; simp
    rw [e]
    exact hy1

theorem edge_true_iff_pressed_rises_witness :
    (btnReadAt (runState (led_btn true) [(true, 0)]) (true, 5)).1 = true ∧
    (btnReadAt (runState (led_btn true)
      ([(true, 0)] ++ (true, 5) :: [(false, 6), (false, 11), (true, 12)])) (true, 20)).1 = true ∧
    ∃ b1 z b2, [(false, 6), (false, 11), (true, 12)] = b1 ++ z :: b2 ∧
      (runState (led_btn true) ([(true, 0)] ++ (true, 5) :: (b1 ++ [z]))).pressed = false :=
  ⟨by decide, by decide,
    (edge_true_iff_pressed_rises default BTN_1 1).2 [(true, 0)]
      [(false, 6), (false, 11), (true, 12)] (true, 5) (true, 20) (by decide) (by decide)⟩

/-- C3 (counterexample): the nine calls of the glitch scenario contain one
press event but no call that returns true. -/
theorem edge_glitch_press_event_not_counted :
    ClockOk (sampled 0 1 [false, false, false, true, false, false, false, false, false]) ∧
    (runReads (led_btn true)
        (sampled 0 1 [false, false, false, true, false, false, false, false, false])).count true
      ≠ pressEvents false
        ((sampled 0 1 [false, false, false, true, false, false, false, false, false]).map
          Prod.fst) := by
  refine ⟨⟨by simp [sampled], ?_⟩, by decide⟩
  intro x hx
  simp [sampled] at hx
  rcases hx with rfl | rfl | rfl | rfl | rfl | rfl | rfl | rfl | rfl <;> simp

/-- C3 (amended): in EDGE mode, from an object built by `Button`, the number of
calls that return true never exceeds the number of press events of the sampled
levels, and it equals that number when the clock readings are non-decreasing
`uint32_t` values, every maximal run of active levels spans at least 5 ms
between its first and its last sample, and so does every maximal run of
inactive levels that separates two runs of active levels. -/
theorem edge_reads_count_press_events (self : Button_s) (pin fn : Nat)
    (xs : List (Bool × Nat)) :
    (runReads (Button self pin true fn) xs).count true
      ≤ pressEvents false (xs.map Prod.fst) ∧
    (ClockOk xs → runsHold xs = true →
      (runReads (Button self pin true fn) xs).count true
        = pressEvents false (xs.map Prod.fst)) := by
  obtain ⟨h1, h2, h3, h4, h5, h6⟩ := Button_fields self pin true fn
  constructor
  · have := edge_reads_le xs (Button self pin true fn) false h4 (by rw [h3, h1])
    simpa using this
  · intro hclock hruns
    have key := edge_reads_eq xs (Button self pin true fn) true 0 0 h4 (by rw [h3, h1]) h5
      (by rw [h6]) (le_refl _) (fun _ => by rw [h1, h2]) hclock (fun y _ => Nat.zero_le _)
      (by rw [h2]; exact hruns)
    rw [key, h2]
    simp

theorem edge_reads_count_press_events_witness :
    ClockOk [(false, 3), (true, 4), (true, 9), (false, 10), (false, 15), (true, 16),
      (true, 30), (false, 31)] ∧
    runsHold [(false, 3), (true, 4), (true, 9), (false, 10), (false, 15), (true, 16),
      (true, 30), (false, 31)] = true ∧
    (runReads (led_btn true)
        [(false, 3), (true, 4), (true, 9), (false, 10), (false, 15), (true, 16),
          (true, 30), (false, 31)]).count true
      = 2 := by
  have hc : ClockOk [(false, 3), (true, 4), (true, 9), (false, 10), (false, 15), (true, 16),
      (true, 30), (false, 31)] := by
    constructor
    · simp
    · intro x hx
      simp at hx
      rcases hx with rfl | rfl | rfl | rfl | rfl | rfl | rfl | rfl <;> simp
  exact ⟨hc, by decide,
    (edge_reads_count_press_events default BTN_1 1 _).2 hc (by decide)⟩

/-- C4 (counterexample): in LEVEL mode, after the calls `(1, 0 ms)`, `(1, 5 ms)`
from a constructed object, the call `(0, 6 ms)` returns false although `pressed`
is true after it. -/
theorem level_false_while_pressed :
    ¬ ((btnReadAt (runState (led_btn false) [(true, 0), (true, 5)]) (false, 6)).1 = true ↔
      (btnReadAt (runState (led_btn false) [(true, 0), (true, 5)]) (false, 6)).2.pressed
        = true) := by
  decide

/-- C4 (amended): in LEVEL mode, for every object and every sampled level and
clock reading, `btnRead` returns true if and only if its `debounceButton` call
reports settled and `pressed` is true after the call; in particular it returns
false on every call after which `pressed` is false. -/
theorem level_true_iff_settled_and_pressed (s : Button_s) (x : Bool × Nat)
    (hmode : s.run_once = false) :
    ((btnReadAt s x).1 = true ↔
      (settledAt s x = true ∧ (btnReadAt s x).2.pressed = true)) ∧
    ((btnReadAt s x).2.pressed = false → (btnReadAt s x).1 = false) := by
  rw [btnReadAt_result_level s x hmode, btnReadAt_pressed]
  cases settledAt s x <;> cases x.1 <;> simp

theorem level_true_iff_settled_and_pressed_witness :
    (runState (led_btn false) [(true, 0)]).run_once = false ∧
      (btnReadAt (runState (led_btn false) [(true, 0)]) (true, 5)).1 = true := by
  have hm : (runState (led_btn false) [(true, 0)]).run_once = false := by decide
  exact ⟨hm, (level_true_iff_settled_and_pressed
    (runState (led_btn false) [(true, 0)]) (true, 5) hm).1.mpr ⟨by decide, by decide⟩⟩


/-- C5 (counterexample): with `press_time` = 100 and `state = last_state`, the
`debounceButton` call at reading 50 returns true (32-bit difference
`2^32 - 50`), and the next call, at reading 100 with the raw level unchanged,
returns false. -/
theorem debounce_not_monotone_across_wrap :
    [50, 100].Pairwise (· ≤ ·) ∧
    (debounceButton { led_btn true with press_time := 100 } 50 50).1 = true ∧
    ¬ (∀ r ∈ debounceReads
        (debounceButton { led_btn true with press_time := 100 } 50 50).2 [100], r = true) := by
  refine ⟨by simp, by decide, by decide⟩

/-- C5 (amended): for every object whose `press_time` is not later than the
first clock reading and every non-decreasing sequence of `uint32_t` clock
readings, if a `debounceButton` call returns true and the later calls see the
same raw level, every later call returns true. -/
theorem debounce_monotone (s : Button_s) (t0 : Nat) (ts : List Nat)
    (hmono : (t0 :: ts).Pairwise (· ≤ ·)) (h32 : ∀ t ∈ t0 :: ts, t < 2 ^ 32)
    (hpt : s.press_time ≤ t0) (h0 : (debounceButton s t0 t0).1 = true) :
    ∀ r ∈ debounceReads (debounceButton s t0 t0).2 ts, r = true := by
  have ht0 : t0 < 2 ^ 32 := h32 t0 (by simp)
  have hle : ∀ t ∈ ts, t0 ≤ t := (List.pairwise_cons.mp hmono).1
  apply debounceReads_stable
  · rw [debounceButton_state, debounceButton_last_state]
  · intro t ht
    have ht32 : t < 2 ^ 32 := h32 t (by simp [ht])
    have htle := hle t ht
    rw [debounceButton_result] at h0
    have h0 := of_decide_eq_true h0
    rw [debounceButton_debounce_time, debounceButton_press_time]
    split_ifs at h0 ⊢
    · rw [sub32_of_le hpt ht0] at h0
      rw [sub32_of_le (by omega) ht32]
      omega
    · rw [sub32_self] at h0
      omega

theorem debounce_monotone_witness :
    [7, 8, 20].Pairwise (· ≤ ·) ∧ (led_btn true).press_time ≤ 7 ∧
    (debounceButton (led_btn true) 7 7).1 = true ∧
    ∀ r ∈ debounceReads (debounceButton (led_btn true) 7 7).2 [8, 20], r = true := by
  have hm : [7, 8, 20].Pairwise (· ≤ ·) := by simp
  have h0 : (debounceButton (led_btn true) 7 7).1 = true := by decide
  refine ⟨hm, by decide, h0, debounce_monotone (led_btn true) 7 [8, 20] hm ?_ (by decide) h0⟩
  intro t ht
  simp at ht
  rcases ht with rfl | rfl | rfl <;> simp

/-- C6: with the default 5 ms window and one clock reading `now` for both
`getMs()` calls, `debounceButton` returns true exactly when `state` equals
`last_state` on entry and the 32-bit difference `now - press_time` is at least
`debounce_time`; it returns false on every call on which the raw level differs
from the stable level; and when `press_time ≤ now < 2^32` the 32-bit difference
is the plain difference. -/
theorem debounceButton_true_iff (self : Button_s) (now : Nat)
    (hdt : self.debounce_time = DEBOUNCE_TIME) :
    ((debounceButton self now now).1 = true ↔
      (self.state = self.last_state ∧ self.debounce_time ≤ sub32 now self.press_time)) ∧
    (self.state ≠ self.last_state → (debounceButton self now now).1 = false) ∧
    (self.press_time ≤ now → now < 2 ^ 32 →
      ((debounceButton self now now).1 = true ↔
        (self.state = self.last_state ∧ DEBOUNCE_TIME ≤ now - self.press_time))) := by
  have key : (debounceButton self now now).1 = true ↔
      (self.state = self.last_state ∧ self.debounce_time ≤ sub32 now self.press_time) := by
    rw [debounceButton_result]
    by_cases h : self.state = self.last_state
    · simp [h]
    · simp [h, sub32_self, hdt, DEBOUNCE_TIME]
  refine ⟨key, ?_, ?_⟩
  · intro hne
    cases hres : (debounceButton self now now).1
    · rfl
    · exact absurd (key.mp hres).1 hne
  · intro hle hlt
    rw [key, sub32_of_le hle hlt, hdt]

theorem debounceButton_true_iff_witness :
    (led_btn true).debounce_time = DEBOUNCE_TIME ∧
      (debounceButton (led_btn true) 7 7).1 = true := by
  refine ⟨rfl, ?_⟩
  exact (debounceButton_true_iff (led_btn true) 7 rfl).1.mpr ⟨rfl, by decide⟩

/-- C7 (counterexample): sampled at 0, 1, ..., 7 ms, the eight calls of
scenario 1 do not contain exactly one call that returns true. -/
theorem scenario1_edge_not_one_true :
    ¬ ((runReads (led_btn true)
        (sampled 0 1 [false, false, false, true, true, true, true, true])).count true = 1) := by
  decide

/-- C7 (amended): in EDGE mode, for every start time of the 1 ms sampling, none
of the eight calls fed `[0,0,0,1,1,1,1,1]` returns true, and when a sixth
consecutive `1` sample follows, the ninth call is the only one that returns
true. -/
theorem scenario1_edge_reads (self : Button_s) (pin fn t0 : Nat) :
    runReads (Button self pin true fn)
        (sampled t0 1 [false, false, false, true, true, true, true, true])
      = List.replicate 8 false ∧
    runReads (Button self pin true fn)
        (sampled t0 1 [false, false, false, true, true, true, true, true, true])
      = List.replicate 8 false ++ [true] := by
  obtain ⟨h1, h2, h3, h4, h5, h6⟩ := Button_fields self pin true fn
  simp [runReads, sampled, btnReadAt_result_edge, btnReadAt_pressed, settledAt_eq,
    btnReadAt_last_state, btnReadAt_press_time, btnReadAt_debounce_time, btnReadAt_run_once,
    btnReadAt_run_state_edge, h1, h2, h3, h4, h5, h6, sub32_self]
  simp only [sub32]
  omega

/-- C8 (counterexample): sampled at 0, 1, ..., 7 ms in LEVEL mode, the eight
calls of scenario 2 do not contain three calls that return true: the last three
calls all return false. -/
theorem scenario2_level_not_three_true :
    ¬ ((runReads (led_btn false)
          (sampled 0 1 [false, false, false, true, true, true, true, true])).count true = 3)
    ∧ (runReads (led_btn false)
          (sampled 0 1 [false, false, false, true, true, true, true, true])).drop 5
        = [false, false, false] := by
  decide

/-- C8 (amended): in LEVEL mode, for every start time of the 1 ms sampling, none
of the eight calls fed `[0,0,0,1,1,1,1,1]` returns true; when the level stays at
`1` for three more samples, the calls from the point of settlement onward (the
ninth, tenth and eleventh) all return true and no earlier call does. -/
theorem scenario2_level_reads (self : Button_s) (pin fn t0 : Nat) :
    runReads (Button self pin false fn)
        (sampled t0 1 [false, false, false, true, true, true, true, true])
      = List.replicate 8 false ∧
    runReads (Button self pin false fn)
        (sampled t0 1 [false, false, false, true, true, true, true, true, true, true, true])
      = List.replicate 8 false ++ List.replicate 3 true := by
  obtain ⟨h1, h2, h3, h4, h5, h6⟩ := Button_fields self pin false fn
  simp [runReads, sampled, btnReadAt_result_level, btnReadAt_pressed, settledAt_eq,
    btnReadAt_last_state, btnReadAt_press_time, btnReadAt_debounce_time, btnReadAt_run_once,
    btnReadAt_run_state_level, h1, h2, h3, h4, h5, h6, sub32_self]
  simp only [sub32]
  omega

/-- C9: scenario 3 (glitch rejection). In EDGE mode and in LEVEL mode, for every
start time of the 1 ms sampling, none of the nine calls fed
`[0,0,0,1,0,0,0,0,0]` returns true and `pressed` is false after every call. -/
theorem scenario3_glitch_rejected (self : Button_s) (pin fn t0 : Nat) (run_once : Bool) :
    runReads (Button self pin run_once fn)
        (sampled t0 1 [false, false, false, true, false, false, false, false, false])
      = List.replicate 9 false ∧
    runPressed (Button self pin run_once fn)
        (sampled t0 1 [false, false, false, true, false, false, false, false, false])
      = List.replicate 9 false := by
  obtain ⟨h1, h2, h3, h4, h5, h6⟩ := Button_fields self pin run_once fn
  cases run_once
  · simp [runReads, runPressed, sampled, btnReadAt_result_level, btnReadAt_pressed, settledAt_eq,
      btnReadAt_last_state, btnReadAt_press_time, btnReadAt_debounce_time, btnReadAt_run_once,
      btnReadAt_run_state_level, h1, h2, h3, h4, h5, h6, sub32_self]
  · simp [runReads, runPressed, sampled, btnReadAt_result_edge, btnReadAt_pressed, settledAt_eq,
      btnReadAt_last_state, btnReadAt_press_time, btnReadAt_debounce_time, btnReadAt_run_once,
      btnReadAt_run_state_edge, h1, h2, h3, h4, h5, h6, sub32_self]

/-- C10: scenario 4 (rapid double press). In EDGE mode, sampled at a fixed
interval `d` with `4 * d ≥ 5` and no clock wrap during the sixteen calls,
exactly two calls return true: one among the five calls of the first run of
`1`s and one among the five calls of the second run of `1`s. -/
theorem scenario4_double_press (self : Button_s) (pin fn t0 d : Nat) (hd : 5 ≤ 4 * d)
    (hw : t0 + 15 * d < 2 ^ 32) :
    (runReads (Button self pin true fn)
      (sampled t0 d [false, true, true, true, true, true, false, false, false, false, false,
        true, true, true, true, true])).count true = 2 ∧
    (((runReads (Button self pin true fn)
      (sampled t0 d [false, true, true, true, true, true, false, false, false, false, false,
        true, true, true, true, true])).drop 1).take 5).count true = 1 ∧
    (((runReads (Button self pin true fn)
      (sampled t0 d [false, true, true, true, true, true, false, false, false, false, false,
        true, true, true, true, true])).drop 11).take 5).count true = 1 := by
  have hcases : d = 2 ∨ (d = 3 ∨ d = 4) ∨ 5 ≤ d := by omega
  rcases hcases with h | h | h
  · subst h
    rw [scenario4_slow self pin fn t0 hw]
    decide
  · rw [scenario4_mid self pin fn t0 d h hw]
    decide
  · rw [scenario4_fast self pin fn t0 d h hw]
    decide

theorem scenario4_double_press_witness :
    5 ≤ 4 * 2 ∧ 0 + 15 * 2 < 2 ^ 32 ∧
    (runReads (led_btn true)
      (sampled 0 2 [false, true, true, true, true, true, false, false, false, false, false,
        true, true, true, true, true])).count true = 2 :=
  ⟨by decide, by decide,
    (scenario4_double_press default BTN_1 1 0 2 (by decide) (by decide)).1⟩

/-- C11: for every pin, mode flag and callback, `Button` leaves the object with
`pressed`, `last_state`, `state` and `run_state` false, `press_time` 0,
`debounce_time` equal to the default 5 ms, and `pin`, `run_once` and `onClick`
equal to the arguments. -/
theorem Button_initial_state (self : Button_s) (pin : Nat) (run_once : Bool) (fn : Nat) :
    (Button self pin run_once fn).pressed = false ∧
    (Button self pin run_once fn).last_state = false ∧
    (Button self pin run_once fn).state = false ∧
    (Button self pin run_once fn).run_state = false ∧
    (Button self pin run_once fn).press_time = 0 ∧
    (Button self pin run_once fn).debounce_time = 5 ∧
    (Button self pin run_once fn).debounce_time = DEBOUNCE_TIME ∧
    (Button self pin run_once fn).pin = pin ∧
    (Button self pin run_once fn).run_once = run_once ∧
    (Button self pin run_once fn).onClick = fn := by
  simp [Button, DEBOUNCE_TIME]

/-- C12: for every object and clock readings, `debounceButton` adopts `state`
into `last_state` and stores the reading of its first `getMs()` call in
`press_time` when `state` differs from `last_state` on entry, and leaves both
unchanged otherwise; every other field is unchanged and `last_state` equals
`state` after the call. -/
theorem debounceButton_frame (self : Button_s) (now ms2 : Nat) :
    (self.state ≠ self.last_state →
      (debounceButton self now ms2).2.last_state = self.state ∧
      (debounceButton self now ms2).2.press_time = now) ∧
    (self.state = self.last_state →
      (debounceButton self now ms2).2.last_state = self.last_state ∧
      (debounceButton self now ms2).2.press_time = self.press_time) ∧
    (debounceButton self now ms2).2.pressed = self.pressed ∧
    (debounceButton self now ms2).2.state = self.state ∧
    (debounceButton self now ms2).2.run_once = self.run_once ∧
    (debounceButton self now ms2).2.run_state = self.run_state ∧
    (debounceButton self now ms2).2.pin = self.pin ∧
    (debounceButton self now ms2).2.debounce_time = self.debounce_time ∧
    (debounceButton self now ms2).2.onClick = self.onClick ∧
    (debounceButton self now ms2).2.last_state = (debounceButton self now ms2).2.state := by
  unfold debounceButton
  cases h : self.state <;> cases h2 : self.last_state <;> simp [h, h2]

theorem debounceButton_frame_witness :
    ({ led_btn true with state := true }).state ≠ ({ led_btn true with state := true }).last_state ∧
    (debounceButton { led_btn true with state := true } 7 7).2.last_state = true ∧
    (debounceButton { led_btn true with state := true } 7 7).2.press_time = 7 :=
  ⟨by decide, (debounceButton_frame { led_btn true with state := true } 7 7).1 (by decide)⟩

/-- C13: for every object, mode, sampled level and clock readings, `btnRead`
stores the sampled level in `state` and runs `debounceButton` on the result
(`last_state` and `press_time` are those it leaves); when `debounceButton`
reports settled, `pressed` equals `last_state`, which equals the sampled level,
after the call; when it does not, `pressed` is unchanged. -/
theorem btnRead_pressed_update (s : Button_s) (level : Bool) (ms1 ms2 : Nat) :
    (btnRead s level ms1 ms2).2.state = level ∧
    (btnRead s level ms1 ms2).2.last_state
      = (debounceButton { s with state := level } ms1 ms2).2.last_state ∧
    (btnRead s level ms1 ms2).2.press_time
      = (debounceButton { s with state := level } ms1 ms2).2.press_time ∧
    ((debounceButton { s with state := level } ms1 ms2).1 = true →
      (btnRead s level ms1 ms2).2.pressed = (btnRead s level ms1 ms2).2.last_state ∧
      (btnRead s level ms1 ms2).2.last_state = level) ∧
    ((debounceButton { s with state := level } ms1 ms2).1 = false →
      (btnRead s level ms1 ms2).2.pressed = s.pressed) := by
  obtain ⟨h1, h2, h3, h4⟩ := btnRead_fields s level ms1 ms2
  refine ⟨h1, h2, h3, ?_, ?_⟩
  · intro hd
    rw [h4, hd, h2, debounceButton_last_state]
    simp
  · intro hd
    rw [h4, hd]
    simp

theorem btnRead_pressed_update_witness :
    (debounceButton { runState (led_btn true) [(true, 0)] with state := true } 5 5).1 = true ∧
    (btnRead (runState (led_btn true) [(true, 0)]) true 5 5).2.pressed = true := by
  have hd : (debounceButton
      { runState (led_btn true) [(true, 0)] with state := true } 5 5).1 = true := by decide
  have h := (btnRead_pressed_update (runState (led_btn true) [(true, 0)]) true 5 5).2.2.2.1 hd
  exact ⟨hd, by rw [h.1, h.2]⟩

/-- C14: holding the button. In EDGE mode, from an object built by `Button`,
when every call samples an active level at non-decreasing `uint32_t` readings
`t1 :: rest`: at most one call returns true; one call returns true if and only
if the last reading is at least 5 ms after `t1`; and a call returns true exactly
when it is the first call whose reading is at least 5 ms after `t1`. -/
theorem hold_returns_true_once (self : Button_s) (pin fn t1 : Nat) (rest : List Nat)
    (hmono : (t1 :: rest).Pairwise (· ≤ ·)) (h32 : ∀ t ∈ t1 :: rest, t < 2 ^ 32) :
    (runReads (Button self pin true fn) ((t1 :: rest).map (fun t => (true, t)))).count true ≤ 1 ∧
    ((runReads (Button self pin true fn) ((t1 :: rest).map (fun t => (true, t)))).count true = 1
      ↔ t1 + 5 ≤ (t1 :: rest).getLast (List.cons_ne_nil t1 rest)) ∧
    (∀ (pre post : List Nat) (t : Nat), t1 :: rest = pre ++ t :: post →
      ((btnReadAt (runState (Button self pin true fn) (pre.map (fun u => (true, u))))
          (true, t)).1 = true
        ↔ (t1 + 5 ≤ t ∧ ∀ u ∈ pre, u < t1 + 5))) := by
  obtain ⟨f1, f2, f3, f4, f5, f6, f7⟩ := Button_first_active self pin fn t1
  have hle : ∀ t ∈ rest, t1 ≤ t := (List.pairwise_cons.mp hmono).1
  have hts : ∀ t ∈ rest, t1 ≤ t ∧ t < 2 ^ 32 := fun t ht => ⟨hle t ht, h32 t (by simp [ht])⟩
  have hcount : (runReads (Button self pin true fn)
      ((t1 :: rest).map (fun t => (true, t)))).count true
        = (if rest.any (fun t => decide (t1 + 5 ≤ t)) then 1 else 0) := by
    have h := (hold_run t1 rest (btnReadAt (Button self pin true fn) (true, t1)).2 f6
      (by rw [f3, f2]) f7 f4 f5 hts).1
    simp only [List.map_cons, runReads, count_true_cons]
    rw [h, f1, f2]
    simp
  refine ⟨?_, ?_, ?_⟩
  · rw [hcount]; split_ifs <;> omega
  · rw [hcount]
    constructor
    · intro h
      have hany : rest.any (fun t => decide (t1 + 5 ≤ t)) = true := by
        by_contra hn
        rw [if_neg hn] at h
        omega
      obtain ⟨u, hu, hu5⟩ := List.any_eq_true.mp hany
      have := pairwise_le_getLast (t1 :: rest) (List.cons_ne_nil t1 rest) hmono u (by simp [hu])
      have hu5 := of_decide_eq_true hu5
      omega
    · intro h
      have hmem := List.getLast_mem (List.cons_ne_nil t1 rest)
      rw [List.mem_cons] at hmem
      rcases hmem with hmem | hmem
      · omega
      · have hany : rest.any (fun t => decide (t1 + 5 ≤ t)) = true :=
          List.any_eq_true.mpr ⟨_, hmem, decide_eq_true h⟩
        rw [if_pos hany]
  · intro pre post t hsplit
    cases pre with
    | nil =>
      simp only [List.nil_append, List.cons.injEq] at hsplit
      rw [← hsplit.1]
      simp only [List.map_nil, runState]
      rw [f1]
      constructor
      · intro h; exact absurd h (by simp)
      · intro h; omega
    | cons p pre =>
      simp only [List.cons_append, List.cons.injEq] at hsplit
      obtain ⟨hp, hrest⟩ := hsplit
      subst hp
      have hpre : ∀ u ∈ pre, t1 ≤ u ∧ u < 2 ^ 32 :=
        fun u hu => hts u (by rw [hrest]; simp [hu])
      have ht : t1 ≤ t ∧ t < 2 ^ 32 := hts t (by rw [hrest]; simp)
      obtain ⟨-, g2, g3, g4⟩ := hold_run t1 pre (btnReadAt (Button self pin true fn) (true, t1)).2
        f6 (by rw [f3, f2]) f7 f4 f5 hpre
      have gro : (runState (btnReadAt (Button self pin true fn) (true, t1)).2
          (pre.map (fun u => (true, u)))).run_once = true := by
        rw [runState_run_once, f6]
      have gl := runState_latch_edge (btnReadAt (Button self pin true fn) (true, t1)).2
        (pre.map (fun u => (true, u))) f6 (by rw [f3, f2])
      have gdt : (runState (btnReadAt (Button self pin true fn) (true, t1)).2
          (pre.map (fun u => (true, u)))).debounce_time = 5 := by
        rw [runState_debounce_time, f7]
      simp only [List.map_cons, runState]
      rw [btnReadAt_result_edge _ _ gro, gl, btnReadAt_pressed, settledAt_eq, gdt, g3, g4, g2, f2,
        if_pos rfl, sub32_of_le ht.1 ht.2]
      simp only [Bool.false_or]
      by_cases hany : pre.any (fun t => decide (t1 + 5 ≤ t)) = true
      · have hex := List.any_eq_true.mp hany
        obtain ⟨u, hu, hu5⟩ := hex
        have hu5 := of_decide_eq_true hu5
        rw [hany]
        constructor
        · intro h; simp at h
        · intro h
          have := h.2 u (by simp [hu])
          omega
      · have hall : ∀ u ∈ pre, u < t1 + 5 := by
          intro u hu
          by_contra hn
          exact hany (List.any_eq_true.mpr ⟨u, hu, decide_eq_true (by omega)⟩)
        have hany2 : pre.any (fun t => decide (t1 + 5 ≤ t)) = false := by simpa using hany
        rw [hany2]
        constructor
        · intro h
          simp at h
          refine ⟨by omega, ?_⟩
          intro u hu
          rw [List.mem_cons] at hu
          rcases hu with hu | hu
          · omega
          · exact hall u hu
        · intro h
          have : 5 ≤ t - t1 := by omega
          simp [this]

theorem hold_returns_true_once_witness :
    [0, 2, 5, 9].Pairwise (· ≤ ·) ∧
    (runReads (led_btn true) ([0, 2, 5, 9].map (fun t => (true, t)))).count true = 1 := by
  have hm : [0, 2, 5, 9].Pairwise (· ≤ ·) := by simp
  have h32 : ∀ t ∈ [0, 2, 5, 9], t < 2 ^ 32 := by
    intro t ht
    simp at ht
    rcases ht with rfl | rfl | rfl | rfl <;> simp
  exact ⟨hm, (hold_returns_true_once default BTN_1 1 0 [2, 5, 9] hm h32).2.1.mpr (by decide)⟩

/-- C15 (counterexample): in LEVEL mode, in the state reached from `Button` by
the call `(1, 100 ms)`, the call `(1, 50 ms)` returns true (32-bit difference
`2^32 - 50`) and the following call `(1, 100 ms)`, with the level still active,
returns false. -/
theorem level_stream_broken_after_rollover :
    ClockOk ((true, 50) :: [(true, 100)]) ∧
    (btnReadAt (runState (led_btn false) [(true, 100)]) (true, 50)).1 = true ∧
    (∀ y ∈ [((true, 100) : Bool × Nat)], y.1 = true) ∧
    ¬ (∀ r ∈ runReads (runState (led_btn false) ([(true, 100)] ++ [(true, 50)]))
        [(true, 100)], r = true) := by
  refine ⟨⟨by simp, ?_⟩, by decide, by simp, by decide⟩
  intro x hx
  simp at hx
  rcases hx with rfl | rfl <;> simp

/-- C15 (amended): level-mode stream. In LEVEL mode, in every state reached from
`Button` by `btnRead` calls whose `press_time` is not later than the reading of
the next call, and for non-decreasing `uint32_t` clock readings from that call
on: once that call has returned true, every following call returns true for as
long as the sampled level stays active, and the call that then samples an
inactive level returns false. -/
theorem level_stream_while_active (self : Button_s) (pin fn : Nat)
    (pre ys : List (Bool × Nat)) (x : Bool × Nat) (hclock : ClockOk (x :: ys))
    (hpt : (runState (Button self pin false fn) pre).press_time ≤ x.2)
    (hx : (btnReadAt (runState (Button self pin false fn) pre) x).1 = true)
    (hys : ∀ y ∈ ys, y.1 = true) :
    (∀ r ∈ runReads (runState (Button self pin false fn) (pre ++ [x])) ys, r = true) ∧
    (∀ z : Bool × Nat, z.1 = false →
      (btnReadAt (runState (Button self pin false fn) (pre ++ x :: ys)) z).1 = false) := by
  obtain ⟨h1, h2, h3, h4, h5, h6⟩ := Button_fields self pin false fn
  constructor
  · obtain ⟨hx32, hxle, hcy⟩ := clockOk_cons hclock
    have hro : (runState (Button self pin false fn) pre).run_once = false := by
      rw [runState_run_once, h4]
    have hdt : (runState (Button self pin false fn) pre).debounce_time = 5 := by
      rw [runState_debounce_time, h5]
    rw [runState_snoc]
    generalize runState (Button self pin false fn) pre = s at hx hro hdt hpt
    rw [btnReadAt_result_level s x hro, Bool.and_eq_true, settledAt_eq, hdt] at hx
    obtain ⟨hset, hx1⟩ := hx
    have hls : x.1 = s.last_state := by
      by_contra hne
      rw [if_neg hne, sub32_self] at hset
      simp at hset
    rw [if_pos hls, sub32_of_le hpt hx32] at hset
    have hset := of_decide_eq_true hset
    apply level_stream ys (btnReadAt s x).2 x.2 (by rw [btnReadAt_run_once, hro])
      (by rw [btnReadAt_last_state, hx1])
    · rw [btnReadAt_press_time, btnReadAt_debounce_time, if_pos hls, hdt]
      omega
    · intro y hy
      exact ⟨hys y hy, hxle y hy, hcy.2 y hy⟩
  · intro z hz
    have hro : (runState (Button self pin false fn) (pre ++ x :: ys)).run_once = false := by
      rw [runState_run_once, h4]
    rw [btnReadAt_result_level _ z hro, hz]
    simp

theorem level_stream_while_active_witness :
    ClockOk ((true, 8) :: [(true, 9), (true, 20)]) ∧
    (runState (led_btn false) [(false, 900), (true, 3)]).press_time ≤ 8 ∧
    (btnReadAt (runState (led_btn false) [(false, 900), (true, 3)]) (true, 8)).1 = true ∧
    ∀ r ∈ runReads (runState (led_btn false) ([(false, 900), (true, 3)] ++ [(true, 8)]))
      [(true, 9), (true, 20)], r = true := by
  have hc : ClockOk ((true, 8) :: [(true, 9), (true, 20)]) := by
    constructor
    · simp
    · intro x hx
      simp at hx
      rcases hx with rfl | rfl | rfl <;> simp
  have hp : (runState (led_btn false) [(false, 900), (true, 3)]).press_time ≤ 8 := by decide
  have hx : (btnReadAt (runState (led_btn false) [(false, 900), (true, 3)]) (true, 8)).1
      = true := by decide
  refine ⟨hc, hp, hx, (level_stream_while_active default BTN_1 1 [(false, 900), (true, 3)]
    [(true, 9), (true, 20)] (true, 8) hc hp hx ?_).1⟩
  intro y hy
  simp at hy
  rcases hy with rfl | rfl <;> rfl

/-- C16: one poll of the LED channel performs one `btnRead` on the object; when
that call returns true it flips the toggle flag and writes the new flag to the
LED, and otherwise leaves the flag and the LED untouched; after any sequence of
polls the object is the one left by the same `btnRead` calls and the flag,
initially false, is the parity of the number of `btnRead` calls that returned
true. -/
theorem button_1_Callback_toggle :
    (∀ (self : Button_s) (led : Led_s) (level : Bool) (ms1 ms2 : Nat),
      (button_1_Callback self led level ms1 ms2).1 = (btnRead self level ms1 ms2).2 ∧
      ((btnRead self level ms1 ms2).1 = true →
        (button_1_Callback self led level ms1 ms2).2.state = !led.state ∧
        (button_1_Callback self led level ms1 ms2).2.writes = led.writes ++ [!led.state]) ∧
      ((btnRead self level ms1 ms2).1 = false →
        (button_1_Callback self led level ms1 ms2).2 = led)) ∧
    (∀ (self : Button_s) (writes : List Bool) (xs : List (Bool × Nat)),
      (runLed self { state := false, writes := writes } xs).1 = runState self xs ∧
      (runLed self { state := false, writes := writes } xs).2.state
        = decide ((runReads self xs).count true % 2 = 1)) := by
  constructor
  · intro self led level ms1 ms2
    unfold button_1_Callback
    by_cases h : (btnRead self level ms1 ms2).1 = true
    · simp [h]
    · simp [h]
  · intro self writes xs
    refine ⟨runLed_fst _ _ _, ?_⟩
    rw [runLed_flag]
    simp

theorem button_1_Callback_toggle_witness :
    (btnRead (runState (led_btn true) [(true, 0)]) true 5 5).1 = true ∧
    (button_1_Callback (runState (led_btn true) [(true, 0)])
      { state := false, writes := [] } true 5 5).2.writes = [true] := by
  have hr : (btnRead (runState (led_btn true) [(true, 0)]) true 5 5).1 = true := by decide
  exact ⟨hr, ((button_1_Callback_toggle.1 (runState (led_btn true) [(true, 0)])
    { state := false, writes := [] } true 5 5).2.1 hr).2⟩

/-- C17: in EDGE mode, for every object and every input, `run_state` equals
`pressed` after a `btnRead` call, hence in every state reached from `Button` by
`btnRead` calls; in LEVEL mode `btnRead` never modifies `run_state`, which stays
false from construction. -/
theorem latch_invariant :
    (∀ (s : Button_s) (level : Bool) (ms1 ms2 : Nat), s.run_once = true →
      (btnRead s level ms1 ms2).2.run_state = (btnRead s level ms1 ms2).2.pressed) ∧
    (∀ (self : Button_s) (pin fn : Nat) (pre : List (Bool × Nat)),
      (runState (Button self pin true fn) pre).run_state
        = (runState (Button self pin true fn) pre).pressed) ∧
    (∀ (s : Button_s) (level : Bool) (ms1 ms2 : Nat), s.run_once = false →
      (btnRead s level ms1 ms2).2.run_state = s.run_state) ∧
    (∀ (self : Button_s) (pin fn : Nat) (pre : List (Bool × Nat)),
      (runState (Button self pin false fn) pre).run_state = false) := by
  refine ⟨btnRead_run_state_edge, ?_, btnRead_run_state_level, ?_⟩
  · intro self pin fn pre
    exact runState_latch_edge (Button self pin true fn) pre rfl rfl
  · intro self pin fn pre
    rw [runState_run_state_level _ _ rfl]
    rfl

theorem latch_invariant_witness :
    (led_btn true).run_once = true ∧
    (btnRead (led_btn true) true 3 3).2.run_state = (btnRead (led_btn true) true 3 3).2.pressed :=
  ⟨rfl, latch_invariant.1 (led_btn true) true 3 3 rfl⟩

/-- C18: release bounce does not re-trigger. In EDGE mode, from a state reached
from `Button` in which `pressed` is true (and so is `run_state`), along every
run of calls with non-decreasing `uint32_t` clock readings in which every
inactive level is sampled less than 5 ms after the call that first saw its run
of inactive levels, `pressed` stays true and no call returns true. -/
theorem release_bounce_no_retrigger (self : Button_s) (pin fn : Nat)
    (pre xs : List (Bool × Nat)) (hclock : ClockOk (pre ++ xs))
    (hp : (runState (Button self pin true fn) pre).pressed = true)
    (hshort : releasesShort (inactiveSince none pre) xs = true) :
    (runState (Button self pin true fn) pre).run_state = true ∧
    (∀ p ∈ runPressed (runState (Button self pin true fn) pre) xs, p = true) ∧
    (∀ r ∈ runReads (runState (Button self pin true fn) pre) xs, r = false) := by
  obtain ⟨h1, h2, h3, h4, h5, h6⟩ := Button_fields self pin true fn
  have hrs : (runState (Button self pin true fn) pre).run_state = true := by
    rw [runState_latch_edge _ pre h4 (by rw [h3, h1]), hp]
  obtain ⟨-, hcx, hpx⟩ := clockOk_append hclock
  have hinv := run_release_invariant self pin fn true pre
  rcases hinv with hinv | ⟨hnone, hsome⟩
  · rw [hinv] at hp; exact absurd hp (by simp)
  · refine ⟨hrs, release_bounce_run xs _ (inactiveSince none pre)
      (by rw [runState_run_once, h4]) hrs hp (by rw [runState_debounce_time, h5])
      hnone hsome hcx ?_ hshort⟩
    intro t ht y hy
    obtain ⟨z, hz, hzt⟩ := inactiveSince_mem pre t ht
    rw [← hzt]
    exact hpx z hz y hy

theorem release_bounce_no_retrigger_witness :
    ClockOk ([(true, 0), (true, 5), (false, 6)]
      ++ [(false, 8), (true, 9), (false, 10), (false, 14), (true, 15), (true, 30)]) ∧
    (runState (led_btn true) [(true, 0), (true, 5), (false, 6)]).pressed = true ∧
    releasesShort (inactiveSince none [(true, 0), (true, 5), (false, 6)])
      [(false, 8), (true, 9), (false, 10), (false, 14), (true, 15), (true, 30)] = true ∧
    ∀ r ∈ runReads (runState (led_btn true) [(true, 0), (true, 5), (false, 6)])
      [(false, 8), (true, 9), (false, 10), (false, 14), (true, 15), (true, 30)], r = false := by
  have hc : ClockOk ([(true, 0), (true, 5), (false, 6)]
      ++ [(false, 8), (true, 9), (false, 10), (false, 14), (true, 15), (true, 30)]) := by
    constructor
    · simp
    · intro x hx
      simp at hx
      rcases hx with rfl | rfl | rfl | rfl | rfl | rfl | rfl | rfl | rfl <;> simp
  exact ⟨hc, by decide, by decide,
    (release_bounce_no_retrigger default BTN_1 1 [(true, 0), (true, 5), (false, 6)]
      [(false, 8), (true, 9), (false, 10), (false, 14), (true, 15), (true, 30)] hc
      (by decide) (by decide)).2.2⟩

/-- C19: the elapsed time of `debounceButton` is the unsigned 32-bit difference
`getMs() - press_time`; for every `press_time` and every true elapsed duration
`e < 2^32`, with the clock reading `(press_time + e) mod 2^32`, that difference
equals `e`, so that on an object whose raw level equals its stable level the
call returns true exactly when `e ≥ debounce_time`, also when the counter has
wrapped since the transition. -/
theorem elapsed_across_rollover (s : Button_s) (e ms1 : Nat)
    (hp : s.press_time < 2 ^ 32) (he : e < 2 ^ 32) :
    sub32 ((s.press_time + e) % 2 ^ 32) s.press_time = e ∧
    (s.state = s.last_state →
      ((debounceButton s ms1 ((s.press_time + e) % 2 ^ 32)).1 = true
        ↔ s.debounce_time ≤ e)) := by
  refine ⟨sub32_add_mod _ _ hp he, ?_⟩
  intro hst
  rw [debounceButton_result, if_pos hst, sub32_add_mod _ _ hp he]
  simp

theorem elapsed_across_rollover_witness :
    ({ led_btn true with press_time := 4294967290 }).press_time < 2 ^ 32 ∧ 10 < 2 ^ 32 ∧
    sub32 4 4294967290 = 10 ∧
    (debounceButton { led_btn true with press_time := 4294967290 } 4 4).1 = true := by
  have h := elapsed_across_rollover { led_btn true with press_time := 4294967290 } 10 4
    (by decide) (by decide)
  exact ⟨by decide, by decide, h.1, (h.2 rfl).mpr (by decide)⟩

end ButtonsPlatformio
